import Mathlib

/-!
Verification of the `kalman-filter` repository (utahrobotics), a generic
multivariate Kalman filter over `nalgebra` fixed-size vectors and matrices.

The embedding models the `f64` scalar type as the exact rational numbers `ℚ`:
every arithmetic operation of the source is translated to the corresponding
exact operation, so algebraic claims are settled in exact arithmetic.  The
command-line utility claim that hinges on IEEE-754 special values (infinity,
NaN) is settled against a separate extended-value model `FVal` that represents
doubles as exact rationals plus the three special values.

Source files embedded:
  * `src/kalman_filter.rs`        — the filter struct and its methods
  * `src/kalman_filter_utils.rs`  — diagonal covariance constructors
  * `utilities/identify_system_variance.rs` — the covariance-estimation tool
-/

/-- The `nalgebra` column vector type `SimpleVector<SIZE>`, with `f64`
modelled as `ℚ`. -/
abbrev SimpleVector (n : ℕ) : Type := Fin n → ℚ

/-- The `nalgebra` square matrix type `SimpleSquareMatrix<SIZE>`, with `f64`
modelled as `ℚ`. -/
abbrev SimpleSquareMatrix (n : ℕ) : Type := Matrix (Fin n) (Fin n) ℚ

/-- The `nalgebra` method `try_inverse`: `some` of the inverse when the matrix
is invertible (nonzero determinant, in exact arithmetic), `none` otherwise. -/
def tryInverse {n : ℕ} (A : SimpleSquareMatrix n) : Option (SimpleSquareMatrix n) :=
  if A.det = 0 then none else some (A.det⁻¹ • A.adjugate)

/-- The struct `KalmanFilter<STATE_FACTORS>`: current state estimate, current
covariance, and the caller-supplied evolution function stored at
construction. -/
structure KalmanFilter (n : ℕ) where
  current_state : SimpleVector n
  current_covariance : SimpleSquareMatrix n
  evolution_function :
    SimpleVector n → SimpleSquareMatrix n → ℚ → SimpleVector n × SimpleSquareMatrix n

/-- `KalmanFilter::new`: builds the filter from the starting state, starting
covariance, and the evolution function. -/
def KalmanFilter.new {n : ℕ} (current_state : SimpleVector n)
    (current_covariance : SimpleSquareMatrix n)
    (evolution_function :
      SimpleVector n → SimpleSquareMatrix n → ℚ → SimpleVector n × SimpleSquareMatrix n) :
    KalmanFilter n :=
  ⟨current_state, current_covariance, evolution_function⟩

/-- `KalmanFilter::combine_measurements`: fuses two (mean, covariance) pairs.
The source inverts the sum of the covariances with `try_inverse` and panics on
a singular sum (`.expect`); the panic is modelled as `none`. -/
def KalmanFilter.combine_measurements {n : ℕ}
    (mean_1 : SimpleVector n) (covariance_1 : SimpleSquareMatrix n)
    (mean_2 : SimpleVector n) (covariance_2 : SimpleSquareMatrix n) :
    Option (SimpleVector n × SimpleSquareMatrix n) :=
  match tryInverse (covariance_1 + covariance_2) with
  | none => none
  | some inverse_sum =>
    some (Matrix.mulVec (covariance_2 * inverse_sum) mean_1
            + Matrix.mulVec (covariance_1 * inverse_sum) mean_2,
          covariance_1 * inverse_sum * covariance_2)

/-- `KalmanFilter::step_time`: replaces state and covariance by the result of
the evolution function applied to them and the time step. -/
def KalmanFilter.step_time {n : ℕ} (f : KalmanFilter n) (dt : ℚ) : KalmanFilter n :=
  let r := f.evolution_function f.current_state f.current_covariance dt
  { f with current_state := r.1, current_covariance := r.2 }

/-- `KalmanFilter::apply_measurement`: fuses the supplied measurement (passed
as the first pair) with the current state (passed as the second pair),
replacing both fields on success.  The source's panic on a singular covariance
sum is modelled as `none`; in that case no updated filter is produced and the
caller's filter is unchanged. -/
def KalmanFilter.apply_measurement {n : ℕ} (f : KalmanFilter n)
    (measurement : SimpleVector n) (measurement_covariance : SimpleSquareMatrix n) :
    Option (KalmanFilter n) :=
  (KalmanFilter.combine_measurements measurement measurement_covariance
      f.current_state f.current_covariance).map
    fun r => { f with current_state := r.1, current_covariance := r.2 }

/-- `KalmanFilter::step_with_measurement`: calls `step_time` then
`apply_measurement`, in that order. -/
def KalmanFilter.step_with_measurement {n : ℕ} (f : KalmanFilter n) (dt : ℚ)
    (measurement : SimpleVector n) (measurement_covariance : SimpleSquareMatrix n) :
    Option (KalmanFilter n) :=
  (f.step_time dt).apply_measurement measurement measurement_covariance

/-- `KalmanFilter::get_current_state`: returns the current state estimate. -/
def KalmanFilter.get_current_state {n : ℕ} (f : KalmanFilter n) : SimpleVector n :=
  f.current_state

/-- `KalmanFilter::get_current_covariance`: returns the current covariance. -/
def KalmanFilter.get_current_covariance {n : ℕ} (f : KalmanFilter n) :
    SimpleSquareMatrix n :=
  f.current_covariance

/-- `covariance_matrix_from_variance_vector` from `kalman_filter_utils.rs`:
`SimpleSquareMatrix::from_diagonal(variances)`. -/
def covariance_matrix_from_variance_vector {n : ℕ} (variances : SimpleVector n) :
    SimpleSquareMatrix n :=
  Matrix.diagonal variances

/-- `covariance_matrix_from_variance` from `kalman_filter_utils.rs`:
`SimpleSquareMatrix::from_diagonal_element(variance)`. -/
def covariance_matrix_from_variance (n : ℕ) (variance : ℚ) : SimpleSquareMatrix n :=
  Matrix.diagonal fun _ => variance

/-!
Embedding of `utilities/identify_system_variance.rs`.  The tool parses rows of
`(actual, measurement)` triples (`VEC_SIZE = 3`), accumulates
`(measurement[i] - actual[i]) * (measurement[j] - actual[j])` into the linear
index `i + 3*j` — which in `nalgebra`'s column-major layout is row `i`,
column `j` — and finally scales the matrix by `1.0 / rows.len()`.
-/

/-- The accumulation loop of the tool's `main`: starting from the zero matrix,
each row adds the outer product of its error vector
`measurement - actual`. -/
def identify_accumulate (rows : List (SimpleVector 3 × SimpleVector 3)) :
    SimpleSquareMatrix 3 :=
  rows.foldl
    (fun covariance_matrix row => covariance_matrix
      + Matrix.of fun a b => (row.2 a - row.1 a) * (row.2 b - row.1 b))
    0

/-- The matrix printed by the tool's `main` (exact-arithmetic model): the
accumulated outer products scaled by `1.0 / rows.len()`. -/
def identify_system_variance (rows : List (SimpleVector 3 × SimpleVector 3)) :
    SimpleSquareMatrix 3 :=
  (1 / (rows.length : ℚ)) • identify_accumulate rows

/-- Modelled from the spec: the "empirical covariance matrix of the measurement
error `measurement - actual` across all rows (population covariance, divisor =
row count, no Bessel correction)" — the `(i, j)` population covariance of the
error components, i.e. the mean of products of deviations of the errors from
their own empirical means, with divisor `rows.length`. -/
def spec_population_covariance (rows : List (SimpleVector 3 × SimpleVector 3))
    (i j : Fin 3) : ℚ :=
  let count : ℚ := rows.length
  let err := fun (row : SimpleVector 3 × SimpleVector 3) (k : Fin 3) => row.2 k - row.1 k
  let mean := fun k : Fin 3 => (rows.map fun row => err row k).sum / count
  (rows.map fun row => (err row i - mean i) * (err row j - mean j)).sum / count

/-!
Extended-value model of IEEE-754 doubles, for the claims that hinge on the
special values.  A double is an exact rational or one of the three special
values; finite arithmetic is treated as exact (rounding is not modelled, and
neither is the sign of zero), which is faithful for computations whose
intermediate values are exactly representable — in particular for the
zero-row run of the tool, where the only operations are `1.0 / 0.0 = +inf`
and `0.0 * (+inf) = NaN`.
-/

/-- An IEEE-754 double modelled as an exact rational or a special value. -/
inductive FVal where
  | num (q : ℚ)
  | posinf
  | neginf
  | nan
deriving DecidableEq

/-- IEEE negation on the extended values. -/
def FVal.neg : FVal → FVal
  | num q => num (-q)
  | posinf => neginf
  | neginf => posinf
  | nan => nan

/-- IEEE addition on the extended values (finite arithmetic exact). -/
def FVal.add : FVal → FVal → FVal
  | nan, _ => nan
  | _, nan => nan
  | num a, num b => num (a + b)
  | num _, posinf => posinf
  | num _, neginf => neginf
  | posinf, num _ => posinf
  | neginf, num _ => neginf
  | posinf, posinf => posinf
  | neginf, neginf => neginf
  | posinf, neginf => nan
  | neginf, posinf => nan

/-- IEEE subtraction: addition of the negation. -/
def FVal.sub (x y : FVal) : FVal := FVal.add x (FVal.neg y)

/-- IEEE multiplication on the extended values: `0 * inf = NaN`, signs of
infinities multiply. -/
def FVal.mul : FVal → FVal → FVal
  | nan, _ => nan
  | _, nan => nan
  | num a, num b => num (a * b)
  | num a, posinf => if 0 < a then posinf else if a < 0 then neginf else nan
  | num a, neginf => if 0 < a then neginf else if a < 0 then posinf else nan
  | posinf, num a => if 0 < a then posinf else if a < 0 then neginf else nan
  | neginf, num a => if 0 < a then neginf else if a < 0 then posinf else nan
  | posinf, posinf => posinf
  | posinf, neginf => neginf
  | neginf, posinf => neginf
  | neginf, neginf => posinf

/-- IEEE division on the extended values: a nonzero finite value divided by
(positive) zero is a signed infinity, `0 / 0 = NaN`, finite over infinite is
zero, infinite over infinite is NaN. -/
def FVal.div : FVal → FVal → FVal
  | nan, _ => nan
  | _, nan => nan
  | num a, num b =>
    if b = 0 then (if 0 < a then posinf else if a < 0 then neginf else nan)
    else num (a / b)
  | num _, posinf => num 0
  | num _, neginf => num 0
  | posinf, num b => if 0 ≤ b then posinf else neginf
  | neginf, num b => if 0 ≤ b then neginf else posinf
  | posinf, posinf => nan
  | posinf, neginf => nan
  | neginf, posinf => nan
  | neginf, neginf => nan

/-- The accumulation loop of the tool's `main` over the extended values. -/
def identify_accumulate_float (rows : List ((Fin 3 → FVal) × (Fin 3 → FVal))) :
    Matrix (Fin 3) (Fin 3) FVal :=
  rows.foldl
    (fun covariance_matrix row => Matrix.of fun a b =>
      FVal.add (covariance_matrix a b)
        (FVal.mul (FVal.sub (row.2 a) (row.1 a)) (FVal.sub (row.2 b) (row.1 b))))
    (Matrix.of fun _ _ => FVal.num 0)

/-- The matrix printed by the tool's `main` over the extended values:
`scale_mut(1.0 / rows.len())` multiplies every entry by the scalar. -/
def identify_system_variance_float (rows : List ((Fin 3 → FVal) × (Fin 3 → FVal))) :
    Matrix (Fin 3) (Fin 3) FVal :=
  let scale := FVal.div (FVal.num 1) (FVal.num (rows.length : ℚ))
  Matrix.of fun a b => FVal.mul (identify_accumulate_float rows a b) scale

/-!
Trace model for the evolution-function call discipline.  Each filter operation
is re-translated with every call of the stored evolution function made
observable: `callEvolution` is the unique way the traced bodies invoke the
function, and it records the call.  The `..._traced_fst` theorems below prove
that the traced bodies compute exactly the plain operations.
-/

/-- A record of one invocation of the stored evolution function. -/
structure EvCall (n : ℕ) where
  state : SimpleVector n
  covariance : SimpleSquareMatrix n
  dt : ℚ

/-- Invokes the filter's stored evolution function and records the call. -/
def callEvolution {n : ℕ} (f : KalmanFilter n) (state : SimpleVector n)
    (covariance : SimpleSquareMatrix n) (dt : ℚ) :
    (SimpleVector n × SimpleSquareMatrix n) × List (EvCall n) :=
  (f.evolution_function state covariance dt, [⟨state, covariance, dt⟩])

/-- `step_time`, with its single evolution-function call recorded. -/
def KalmanFilter.step_time_traced {n : ℕ} (f : KalmanFilter n) (dt : ℚ) :
    KalmanFilter n × List (EvCall n) :=
  let r := callEvolution f f.current_state f.current_covariance dt
  ({ f with current_state := r.1.1, current_covariance := r.1.2 }, r.2)

/-- `apply_measurement`, whose body contains no evolution-function call. -/
def KalmanFilter.apply_measurement_traced {n : ℕ} (f : KalmanFilter n)
    (measurement : SimpleVector n) (measurement_covariance : SimpleSquareMatrix n) :
    Option (KalmanFilter n) × List (EvCall n) :=
  ((KalmanFilter.combine_measurements measurement measurement_covariance
      f.current_state f.current_covariance).map
    fun r => { f with current_state := r.1, current_covariance := r.2 }, [])

/-- `step_with_measurement`: the traced composition of the two calls of its
body, concatenating their call records. -/
def KalmanFilter.step_with_measurement_traced {n : ℕ} (f : KalmanFilter n) (dt : ℚ)
    (measurement : SimpleVector n) (measurement_covariance : SimpleSquareMatrix n) :
    Option (KalmanFilter n) × List (EvCall n) :=
  let r1 := f.step_time_traced dt
  let r2 := r1.1.apply_measurement_traced measurement measurement_covariance
  (r2.1, r1.2 ++ r2.2)

/-- `get_current_state`, whose body contains no evolution-function call. -/
def KalmanFilter.get_current_state_traced {n : ℕ} (f : KalmanFilter n) :
    SimpleVector n × List (EvCall n) :=
  (f.current_state, [])

/-- `get_current_covariance`, whose body contains no evolution-function
call. -/
def KalmanFilter.get_current_covariance_traced {n : ℕ} (f : KalmanFilter n) :
    SimpleSquareMatrix n × List (EvCall n) :=
  (f.current_covariance, [])

/- Helper lemmas about `tryInverse` and `combine_measurements`. -/

/-- On a matrix with nonzero determinant, `tryInverse` returns Mathlib's
nonsingular inverse. -/
theorem tryInverse_eq_some {n : ℕ} (A : SimpleSquareMatrix n) (h : A.det ≠ 0) :
    tryInverse A = some A⁻¹ := by
  unfold tryInverse
  rw [if_neg h, Matrix.inv_def, Ring.inverse_eq_inv]

/-- On a matrix with zero determinant, `tryInverse` returns `none`. -/
theorem tryInverse_eq_none {n : ℕ} (A : SimpleSquareMatrix n) (h : A.det = 0) :
    tryInverse A = none := by
  unfold tryInverse
  rw [if_pos h]

/-- Closed form of `combine_measurements` when the covariance sum is
invertible. -/
theorem combine_measurements_eq_of_det_ne_zero {n : ℕ}
    (mean_1 : SimpleVector n) (covariance_1 : SimpleSquareMatrix n)
    (mean_2 : SimpleVector n) (covariance_2 : SimpleSquareMatrix n)
    (h : (covariance_1 + covariance_2).det ≠ 0) :
    KalmanFilter.combine_measurements mean_1 covariance_1 mean_2 covariance_2 =
      some (Matrix.mulVec (covariance_2 * (covariance_1 + covariance_2)⁻¹) mean_1
              + Matrix.mulVec (covariance_1 * (covariance_1 + covariance_2)⁻¹) mean_2,
            covariance_1 * (covariance_1 + covariance_2)⁻¹ * covariance_2) := by
  unfold KalmanFilter.combine_measurements
  rw [tryInverse_eq_some _ h]

/-- `combine_measurements` fails exactly on a singular covariance sum. -/
theorem combine_measurements_eq_none {n : ℕ}
    (mean_1 : SimpleVector n) (covariance_1 : SimpleSquareMatrix n)
    (mean_2 : SimpleVector n) (covariance_2 : SimpleSquareMatrix n)
    (h : (covariance_1 + covariance_2).det = 0) :
    KalmanFilter.combine_measurements mean_1 covariance_1 mean_2 covariance_2 = none := by
  unfold KalmanFilter.combine_measurements
  rw [tryInverse_eq_none _ h]

/-- Central algebraic identity: conjugating either summand by the inverse of
the sum gives the same product.  `A (A+B)⁻¹ B = B (A+B)⁻¹ A` when `A + B` is
invertible. -/
theorem mul_inv_sum_mul_comm {n : ℕ} (A B : SimpleSquareMatrix n)
    (h : IsUnit (A + B).det) :
    A * (A + B)⁻¹ * B = B * (A + B)⁻¹ * A := by
  have h1 : (A + B) * (A + B)⁻¹ = 1 := Matrix.mul_nonsing_inv _ h
  have h2 : (A + B)⁻¹ * (A + B) = 1 := Matrix.nonsing_inv_mul _ h
  have e1 : A * (A + B)⁻¹ * B = B - B * (A + B)⁻¹ * B := by
    have hA : A = (A + B) - B := (add_sub_cancel_right A B).symm
    calc A * (A + B)⁻¹ * B = ((A + B) - B) * ((A + B)⁻¹ * B) := by
          rw [← hA, Matrix.mul_assoc]
      _ = (A + B) * ((A + B)⁻¹ * B) - B * ((A + B)⁻¹ * B) := by rw [sub_mul]
      _ = B - B * (A + B)⁻¹ * B := by
          rw [← Matrix.mul_assoc, ← Matrix.mul_assoc, h1, Matrix.one_mul]
  have e2 : B * (A + B)⁻¹ * A = B - B * (A + B)⁻¹ * B := by
    have hA : A = (A + B) - B := (add_sub_cancel_right A B).symm
    calc B * (A + B)⁻¹ * A = B * (A + B)⁻¹ * ((A + B) - B) := by rw [← hA]
      _ = B * (A + B)⁻¹ * (A + B) - B * (A + B)⁻¹ * B := by rw [Matrix.mul_sub]
      _ = B - B * (A + B)⁻¹ * B := by
          rw [Matrix.mul_assoc, h2, Matrix.mul_one]
  rw [e1, e2]

/-- C1: for every prior `(mu, Sigma)` and measurement `(m, Sigma_m)` with
`Sigma + Sigma_m` invertible, `apply_measurement` replaces the state with
`Sigma_m * inverse(Sigma + Sigma_m) * mu + Sigma * inverse(Sigma + Sigma_m) * m`
and the covariance with `Sigma * inverse(Sigma + Sigma_m) * Sigma_m`, the
documented fusion formula with the prior as `(mu1, Sigma1)` and the measurement
as `(mu2, Sigma2)`. -/
theorem apply_measurement_fusion_formula {n : ℕ} (f : KalmanFilter n)
    (measurement : SimpleVector n) (measurement_covariance : SimpleSquareMatrix n)
    (h : IsUnit (f.current_covariance + measurement_covariance).det) :
    f.apply_measurement measurement measurement_covariance = some
      { current_state :=
          Matrix.mulVec
            (measurement_covariance * (f.current_covariance + measurement_covariance)⁻¹)
            f.current_state
          + Matrix.mulVec
            (f.current_covariance * (f.current_covariance + measurement_covariance)⁻¹)
            measurement,
        current_covariance :=
          f.current_covariance * (f.current_covariance + measurement_covariance)⁻¹
            * measurement_covariance,
        evolution_function := f.evolution_function } := by
  obtain ⟨s, c, ev⟩ := f
  have hcomm : measurement_covariance + c = c + measurement_covariance := add_comm _ _
  have hd : (measurement_covariance + c).det ≠ 0 := by rw [hcomm]; exact h.ne_zero
  unfold KalmanFilter.apply_measurement
  rw [combine_measurements_eq_of_det_ne_zero _ _ _ _ hd]
  simp only [Option.map_some', Option.some.injEq, KalmanFilter.mk.injEq, hcomm]
  exact ⟨add_comm _ _, (mul_inv_sum_mul_comm c measurement_covariance h).symm, trivial⟩

/-- Witness for C1: the fusion formula evaluated on a concrete 1-dimensional
filter with unit prior covariance and unit measurement covariance. -/
theorem apply_measurement_fusion_formula_witness :
    IsUnit (((1 : SimpleSquareMatrix 1)) + 1).det ∧
    (KalmanFilter.new (fun _ => (0:ℚ)) 1 fun s c _ => (s, c)).apply_measurement
        (fun _ => 2) 1 =
      some { current_state :=
               Matrix.mulVec ((1 : SimpleSquareMatrix 1) * ((1 : SimpleSquareMatrix 1) + 1)⁻¹)
                 (fun _ => 0)
               + Matrix.mulVec ((1 : SimpleSquareMatrix 1) * ((1 : SimpleSquareMatrix 1) + 1)⁻¹)
                 (fun _ => 2),
             current_covariance :=
               (1 : SimpleSquareMatrix 1) * ((1 : SimpleSquareMatrix 1) + 1)⁻¹ * 1,
             evolution_function := fun s c _ => (s, c) } := by
  have hu : IsUnit (((1 : SimpleSquareMatrix 1)) + 1).det := by
    rw [isUnit_iff_ne_zero]
    simp [Matrix.det_fin_one, Matrix.one_apply]
  exact ⟨hu, apply_measurement_fusion_formula _ _ _ hu⟩

/-- C2: when the sum of the current covariance and the measurement covariance
is singular, `apply_measurement` surfaces the failure (the source panics inside
`combine_measurements`, modelled as `none`): no fused filter is produced, so
the caller's state and covariance are exactly as before the call. -/
theorem apply_measurement_singular_none {n : ℕ} (f : KalmanFilter n)
    (measurement : SimpleVector n) (measurement_covariance : SimpleSquareMatrix n)
    (h : (f.current_covariance + measurement_covariance).det = 0) :
    f.apply_measurement measurement measurement_covariance = none := by
  unfold KalmanFilter.apply_measurement
  rw [combine_measurements_eq_none _ _ _ _ (by rwa [add_comm])]
  rfl

/-- Witness for C2: a concrete 1-dimensional filter with prior covariance `1`
and measurement covariance `-1`, whose sum is the zero matrix. -/
theorem apply_measurement_singular_none_witness :
    ((KalmanFilter.new (fun _ => (0:ℚ)) (1 : SimpleSquareMatrix 1)
        fun s c _ => (s, c)).current_covariance + (-1 : SimpleSquareMatrix 1)).det = 0 ∧
    (KalmanFilter.new (fun _ => (0:ℚ)) (1 : SimpleSquareMatrix 1)
        fun s c _ => (s, c)).apply_measurement
        (fun _ => 2) (-1 : SimpleSquareMatrix 1) = none := by
  have h : ((KalmanFilter.new (fun _ => (0:ℚ)) (1 : SimpleSquareMatrix 1)
      fun s c _ => (s, c)).current_covariance + (-1 : SimpleSquareMatrix 1)).det = 0 := by
    simp [KalmanFilter.new, Matrix.det_fin_one]
  exact ⟨h, apply_measurement_singular_none _ _ _ h⟩

/-- C3: `step_with_measurement dt m Sigma_m` produces exactly the filter
obtained by `step_time dt` followed by `apply_measurement m Sigma_m` with the
same arguments (the source body is precisely this call sequence, so the results
are identical). -/
theorem step_with_measurement_eq_step_then_apply {n : ℕ} (f : KalmanFilter n) (dt : ℚ)
    (measurement : SimpleVector n) (measurement_covariance : SimpleSquareMatrix n) :
    f.step_with_measurement dt measurement measurement_covariance
      = (f.step_time dt).apply_measurement measurement measurement_covariance := rfl

/-- C4: measurement fusion is commutative in its two (mean, covariance)
arguments.  This holds for all matrices, in particular for all symmetric
positive-definite ones: when the covariance sum is invertible both orders give
the same fused pair, and when it is singular both orders fail. -/
theorem combine_measurements_comm {n : ℕ} (mu1 mu2 : SimpleVector n)
    (Sigma1 Sigma2 : SimpleSquareMatrix n) :
    KalmanFilter.combine_measurements mu1 Sigma1 mu2 Sigma2
      = KalmanFilter.combine_measurements mu2 Sigma2 mu1 Sigma1 := by
  by_cases hd : (Sigma1 + Sigma2).det = 0
  · rw [combine_measurements_eq_none _ _ _ _ hd,
      combine_measurements_eq_none _ _ _ _ (by rwa [add_comm])]
  · have hd' : (Sigma2 + Sigma1).det ≠ 0 := by rwa [add_comm]
    rw [combine_measurements_eq_of_det_ne_zero _ _ _ _ hd,
      combine_measurements_eq_of_det_ne_zero _ _ _ _ hd', add_comm Sigma2 Sigma1]
    simp only [Option.some.injEq, Prod.mk.injEq]
    exact ⟨add_comm _ _, mul_inv_sum_mul_comm _ _ (isUnit_iff_ne_zero.mpr hd)⟩

/-- C5: fusing two estimates with the same invertible covariance `Sigma` gives
the arithmetic mean of the two means and half the common covariance. -/
theorem combine_measurements_equal_covariances {n : ℕ} (mu1 mu2 : SimpleVector n)
    (Sigma : SimpleSquareMatrix n) (h : IsUnit Sigma.det) :
    KalmanFilter.combine_measurements mu1 Sigma mu2 Sigma
      = some ((2:ℚ)⁻¹ • (mu1 + mu2), (2:ℚ)⁻¹ • Sigma) := by
  have hr : (Sigma + Sigma) * ((2:ℚ)⁻¹ • Sigma⁻¹) = 1 := by
    rw [Matrix.mul_smul, add_mul, Matrix.mul_nonsing_inv _ h, smul_add, ← add_smul]
    norm_num
  have hu : IsUnit (Sigma + Sigma).det := Matrix.isUnit_det_of_right_inverse hr
  have hinv : (Sigma + Sigma)⁻¹ = (2:ℚ)⁻¹ • Sigma⁻¹ := Matrix.inv_eq_right_inv hr
  rw [combine_measurements_eq_of_det_ne_zero _ _ _ _ hu.ne_zero, hinv]
  have hsm : Sigma * ((2:ℚ)⁻¹ • Sigma⁻¹) = (2:ℚ)⁻¹ • (1 : SimpleSquareMatrix n) := by
    rw [Matrix.mul_smul, Matrix.mul_nonsing_inv _ h]
  rw [hsm]
  simp only [Option.some.injEq, Prod.mk.injEq]
  constructor
  · rw [Matrix.smul_mulVec_assoc, Matrix.smul_mulVec_assoc, Matrix.one_mulVec,
      Matrix.one_mulVec, smul_add]
  · rw [Matrix.smul_mul, Matrix.one_mul]

/-- Witness for C5: fusing `0` and `2` with common unit covariance in one
dimension gives mean `1` and covariance `1/2`. -/
theorem combine_measurements_equal_covariances_witness :
    IsUnit (1 : SimpleSquareMatrix 1).det ∧
    KalmanFilter.combine_measurements (fun _ => (0:ℚ)) 1 (fun _ => 2) 1
      = some ((2:ℚ)⁻¹ • ((fun _ => (0:ℚ)) + fun _ => 2), (2:ℚ)⁻¹ • (1 : SimpleSquareMatrix 1)) := by
  have h : IsUnit (1 : SimpleSquareMatrix 1).det := by
    rw [Matrix.det_one]; exact isUnit_one
  exact ⟨h, combine_measurements_equal_covariances _ _ _ h⟩

/-- C7: the vector constructor places each variance on the diagonal with zero
off-diagonal entries, and the scalar constructor places the given scalar on
every diagonal entry with zero off-diagonal entries.  Both are total. -/
theorem covariance_constructors_diagonal {n : ℕ} (variances : SimpleVector n)
    (variance : ℚ) (i j : Fin n) :
    covariance_matrix_from_variance_vector variances i j
        = (if i = j then variances i else 0)
    ∧ covariance_matrix_from_variance n variance i j
        = (if i = j then variance else 0) := by
  constructor <;>
    simp [covariance_matrix_from_variance_vector, covariance_matrix_from_variance,
      Matrix.diagonal_apply]

/-- C6: for positive-definite covariance inputs with invertible sum, the fused
covariance is below both inputs in the Loewner order: both differences are
positive semi-definite, so fusion never increases uncertainty. -/
theorem combine_measurements_loewner_decrease {n : ℕ} (mu1 mu2 : SimpleVector n)
    (Sigma1 Sigma2 : SimpleSquareMatrix n)
    (h1 : Sigma1.PosDef) (h2 : Sigma2.PosDef)
    (h : IsUnit (Sigma1 + Sigma2).det) :
    ∃ p, KalmanFilter.combine_measurements mu1 Sigma1 mu2 Sigma2 = some p
      ∧ (Sigma1 - p.2).PosSemidef ∧ (Sigma2 - p.2).PosSemidef := by
  refine ⟨_, combine_measurements_eq_of_det_ne_zero _ _ _ _ h.ne_zero, ?_, ?_⟩
  · have e1 : Sigma1 - Sigma1 * (Sigma1 + Sigma2)⁻¹ * Sigma2
        = Sigma1 * (Sigma1 + Sigma2)⁻¹ * Sigma1 := by
      calc Sigma1 - Sigma1 * (Sigma1 + Sigma2)⁻¹ * Sigma2
          = Sigma1 * (Sigma1 + Sigma2)⁻¹ * (Sigma1 + Sigma2)
            - Sigma1 * (Sigma1 + Sigma2)⁻¹ * Sigma2 := by
            rw [Matrix.nonsing_inv_mul_cancel_right _ _ h]
        _ = Sigma1 * (Sigma1 + Sigma2)⁻¹ * (Sigma1 + Sigma2 - Sigma2) := by
            rw [Matrix.mul_sub]
        _ = Sigma1 * (Sigma1 + Sigma2)⁻¹ * Sigma1 := by
            rw [add_sub_cancel_right]
    rw [e1]
    have hpsd := Matrix.PosSemidef.conjTranspose_mul_mul_same
      ((h1.add h2).posSemidef.inv) Sigma1
    rwa [h1.isHermitian.eq] at hpsd
  · have e2 : Sigma2 - Sigma1 * (Sigma1 + Sigma2)⁻¹ * Sigma2
        = Sigma2 * (Sigma1 + Sigma2)⁻¹ * Sigma2 := by
      calc Sigma2 - Sigma1 * (Sigma1 + Sigma2)⁻¹ * Sigma2
          = (Sigma1 + Sigma2) * ((Sigma1 + Sigma2)⁻¹ * Sigma2)
            - Sigma1 * ((Sigma1 + Sigma2)⁻¹ * Sigma2) := by
            rw [← Matrix.mul_assoc, ← Matrix.mul_assoc, Matrix.mul_nonsing_inv _ h,
              Matrix.one_mul]
        _ = (Sigma1 + Sigma2 - Sigma1) * ((Sigma1 + Sigma2)⁻¹ * Sigma2) := by
            rw [sub_mul]
        _ = Sigma2 * (Sigma1 + Sigma2)⁻¹ * Sigma2 := by
            rw [add_sub_cancel_left, Matrix.mul_assoc]
    rw [e2]
    have hpsd := Matrix.PosSemidef.conjTranspose_mul_mul_same
      ((h1.add h2).posSemidef.inv) Sigma2
    rwa [h2.isHermitian.eq] at hpsd

/-- Witness for C6: fusing two unit-covariance estimates in one dimension; the
identity matrix is positive definite and the covariance sum has determinant
`2`. -/
theorem combine_measurements_loewner_decrease_witness :
    (1 : SimpleSquareMatrix 1).PosDef ∧
    IsUnit ((1 : SimpleSquareMatrix 1) + 1).det ∧
    ∃ p, KalmanFilter.combine_measurements (fun _ => (0:ℚ)) (1 : SimpleSquareMatrix 1)
        (fun _ => (1:ℚ)) (1 : SimpleSquareMatrix 1) = some p
      ∧ ((1 : SimpleSquareMatrix 1) - p.2).PosSemidef
      ∧ ((1 : SimpleSquareMatrix 1) - p.2).PosSemidef := by
  have hpd : (1 : SimpleSquareMatrix 1).PosDef := Matrix.PosDef.one
  have hu : IsUnit ((1 : SimpleSquareMatrix 1) + 1).det := by
    rw [isUnit_iff_ne_zero]
    simp [Matrix.det_fin_one, Matrix.one_apply]
  exact ⟨hpd, hu, combine_measurements_loewner_decrease _ _ _ _ hpd hpd hu⟩

/-- Accumulation loop of the tool, with the initial accumulator generalized:
each entry adds up the products of error components over the rows. -/
theorem identify_accumulate_loop (rows : List (SimpleVector 3 × SimpleVector 3))
    (A : SimpleSquareMatrix 3) (i j : Fin 3) :
    (rows.foldl
      (fun covariance_matrix row => covariance_matrix
        + Matrix.of fun a b => (row.2 a - row.1 a) * (row.2 b - row.1 b)) A) i j
      = A i j + (rows.map fun row => (row.2 i - row.1 i) * (row.2 j - row.1 j)).sum := by
  induction rows generalizing A with
  | nil => simp
  | cons r rs ih =>
    rw [List.foldl_cons, ih, List.map_cons, List.sum_cons]
    simp only [Matrix.add_apply, Matrix.of_apply]
    ring

/-- Entry form of `identify_accumulate`. -/
theorem identify_accumulate_apply (rows : List (SimpleVector 3 × SimpleVector 3))
    (i j : Fin 3) :
    identify_accumulate rows i j
      = (rows.map fun row => (row.2 i - row.1 i) * (row.2 j - row.1 j)).sum := by
  unfold identify_accumulate
  rw [identify_accumulate_loop]
  simp

/-- C8 (amended): for every non-empty row list, entry `(i, j)` of the printed
matrix is the sum over rows of `error i * error j` divided by the row count —
the uncentered second moment (covariance about zero) of the error, not the
population covariance about the empirical mean. -/
theorem identify_system_variance_uncentered (rows : List (SimpleVector 3 × SimpleVector 3))
    (hne : rows ≠ []) (i j : Fin 3) :
    identify_system_variance rows i j
      = (rows.map fun row => (row.2 i - row.1 i) * (row.2 j - row.1 j)).sum
          / (rows.length : ℚ) := by
  unfold identify_system_variance
  rw [Matrix.smul_apply, identify_accumulate_apply, smul_eq_mul, one_div,
    inv_mul_eq_div]

/-- Witness for C8 (amended): one row with actual `(0,0,0)` and measurement
`(1,0,0)` gives entry `(0,0)` equal to `1/1`. -/
theorem identify_system_variance_uncentered_witness :
    ([((fun _ => (0:ℚ)), fun k : Fin 3 => if k = 0 then 1 else 0)]
        : List (SimpleVector 3 × SimpleVector 3)) ≠ [] ∧
    identify_system_variance
        [((fun _ => (0:ℚ)), fun k : Fin 3 => if k = 0 then 1 else 0)] 0 0
      = (([((fun _ => (0:ℚ)), fun k : Fin 3 => if k = 0 then 1 else 0)]
            : List (SimpleVector 3 × SimpleVector 3)).map
          fun row => (row.2 0 - row.1 0) * (row.2 0 - row.1 0)).sum
          / (([((fun _ => (0:ℚ)), fun k : Fin 3 => if k = 0 then 1 else 0)]
              : List (SimpleVector 3 × SimpleVector 3)).length : ℚ) := by
  refine ⟨by simp, identify_system_variance_uncentered _ (by simp) 0 0⟩

/-- Counterexample to C8 as stated: for the single row with actual `(0,0,0)`
and measurement `(1,0,0)`, the tool prints `1` at entry `(0,0)`, while the
population covariance of the error component (a single sample, deviation from
its own mean) is `0`. -/
theorem identify_system_variance_not_population_covariance :
    identify_system_variance
        [((fun _ => (0:ℚ)), fun k : Fin 3 => if k = 0 then 1 else 0)] 0 0 = 1
    ∧ spec_population_covariance
        [((fun _ => (0:ℚ)), fun k : Fin 3 => if k = 0 then 1 else 0)] 0 0 = 0
    ∧ identify_system_variance
        [((fun _ => (0:ℚ)), fun k : Fin 3 => if k = 0 then 1 else 0)] 0 0
      ≠ spec_population_covariance
        [((fun _ => (0:ℚ)), fun k : Fin 3 => if k = 0 then 1 else 0)] 0 0 := by
  have hl : identify_system_variance
      [((fun _ => (0:ℚ)), fun k : Fin 3 => if k = 0 then 1 else 0)] 0 0 = 1 := by
    rw [identify_system_variance_uncentered _ (by simp) 0 0]
    norm_num
  have hr : spec_population_covariance
      [((fun _ => (0:ℚ)), fun k : Fin 3 => if k = 0 then 1 else 0)] 0 0 = 0 := by
    unfold spec_population_covariance
    norm_num
  exact ⟨hl, hr, by rw [hl, hr]; norm_num⟩

/-- C9: on a well-formed input with zero rows the tool does not fail: the
accumulator stays the zero matrix, the scale factor is `1.0 / 0.0 = +inf`, and
every printed entry is `0.0 * (+inf) = NaN`. -/
theorem identify_system_variance_float_empty_nan (i j : Fin 3) :
    identify_system_variance_float [] i j = FVal.nan := by
  rfl

/-- The traced `step_time` computes the plain `step_time`. -/
theorem step_time_traced_fst {n : ℕ} (f : KalmanFilter n) (dt : ℚ) :
    (f.step_time_traced dt).1 = f.step_time dt := rfl

/-- The traced `apply_measurement` computes the plain `apply_measurement`. -/
theorem apply_measurement_traced_fst {n : ℕ} (f : KalmanFilter n)
    (measurement : SimpleVector n) (measurement_covariance : SimpleSquareMatrix n) :
    (f.apply_measurement_traced measurement measurement_covariance).1
      = f.apply_measurement measurement measurement_covariance := rfl

/-- The traced `step_with_measurement` computes the plain
`step_with_measurement`. -/
theorem step_with_measurement_traced_fst {n : ℕ} (f : KalmanFilter n) (dt : ℚ)
    (measurement : SimpleVector n) (measurement_covariance : SimpleSquareMatrix n) :
    (f.step_with_measurement_traced dt measurement measurement_covariance).1
      = f.step_with_measurement dt measurement measurement_covariance := rfl

/-- Mapping the evolution-function field over a fused-filter option is the
constant map to the original filter's field: fusion never touches it. -/
theorem option_map_evolution_const {n : ℕ}
    (o : Option (SimpleVector n × SimpleSquareMatrix n)) (f : KalmanFilter n) :
    (o.map fun r => { f with current_state := r.1, current_covariance := r.2 }).map
        KalmanFilter.evolution_function
      = (o.map fun r => { f with current_state := r.1, current_covariance := r.2 }).map
          fun _ => f.evolution_function := by
  cases o <;> rfl

/-- C10: the stored evolution function is invoked exactly once per `step_time`
call, hence exactly once per `step_with_measurement` call; `apply_measurement`,
`get_current_state` and `get_current_covariance` never invoke it; and no
operation replaces the stored field: the updated filter (whenever one is
produced) carries the original evolution function. -/
theorem evolution_function_call_discipline {n : ℕ} (f : KalmanFilter n) (dt : ℚ)
    (measurement : SimpleVector n) (measurement_covariance : SimpleSquareMatrix n) :
    (f.step_time_traced dt).2.length = 1
    ∧ (f.step_with_measurement_traced dt measurement measurement_covariance).2.length = 1
    ∧ (f.apply_measurement_traced measurement measurement_covariance).2 = []
    ∧ (f.get_current_state_traced).2 = []
    ∧ (f.get_current_covariance_traced).2 = []
    ∧ (f.step_time_traced dt).1.evolution_function = f.evolution_function
    ∧ ((f.apply_measurement_traced measurement measurement_covariance).1.map
          KalmanFilter.evolution_function
        = (f.apply_measurement_traced measurement measurement_covariance).1.map
            fun _ => f.evolution_function)
    ∧ ((f.step_with_measurement_traced dt measurement measurement_covariance).1.map
          KalmanFilter.evolution_function
        = (f.step_with_measurement_traced dt measurement measurement_covariance).1.map
            fun _ => f.evolution_function) := by
  refine ⟨rfl, rfl, rfl, rfl, rfl, rfl, ?_, ?_⟩
  · exact option_map_evolution_const _ f
  · exact option_map_evolution_const _ (f.step_time dt)
